import Mathlib

/-!
Verification of the Code-Block Normalizer implemented by the function
fix_code_blocks in fix_code_blocks.py.

The Python function reads a file, splits its content on newline characters
into a list of lines, runs one forward pass over the lines with a boolean
flag in_code_block, a body buffer code_content and a recorded indent, and
joins the accumulated new_lines back with newline characters.  The pure
line transformation performed by that pass is embedded below; file input
and output are outside the model.  The document data model of the pass is
an ordered sequence of lines, each a string.
-/

/-- Region start marker substring tested against each line, the literal
div tag with class code-block used by the Python code. -/
def startMarker : String := "<div class=\"code-block\">"

/-- Region end marker substring tested against each line, the literal
closing div tag used by the Python code. -/
def endMarker : String := "</div>"

/-- Token whose first occurrence bounds the recorded indentation: the
Python code records line[:line.index of this token] as the indent. -/
def divToken : String := "<div"

/-- Substring containment on character lists: true when pat occurs as a
contiguous run inside the second list.  This mirrors the Python membership
test of a pattern string inside a line string. -/
def containsChars (pat : List Char) : List Char → Bool
  | [] => pat.isEmpty
  | c :: cs => pat.isPrefixOf (c :: cs) || containsChars pat cs

/-- Substring containment on strings: containsStr s pat is the Python
test pat in s. -/
def containsStr (s pat : String) : Bool := containsChars pat.data s.data

/-- Characters before the first occurrence of pat; the whole list when
pat does not occur. -/
def textBeforeAux (pat : List Char) : List Char → List Char
  | [] => []
  | c :: cs => if pat.isPrefixOf (c :: cs) then [] else c :: textBeforeAux pat cs

/-- Prefix of s before the first occurrence of pat, the Python slice
s[:s.index pat]. -/
def textBefore (s pat : String) : String := ⟨textBeforeAux pat.data s.data⟩

/-- Whitespace in the sense of the Python strip and isspace methods,
the exact CPython whitespace table: tab through carriage return, the
separator controls 1C to 1F, the space, next line 85, no-break space A0,
the Ogham space mark 1680, the Unicode space separators 2000 to 200A,
202F, 205F and 3000, and the line and paragraph separators 2028 and
2029. -/
def pyIsSpace (c : Char) : Bool :=
  (0x09 ≤ c.toNat && c.toNat ≤ 0x0d) ||
  (0x1c ≤ c.toNat && c.toNat ≤ 0x1f) ||
  c.toNat = 0x20 || c.toNat = 0x85 || c.toNat = 0xa0 || c.toNat = 0x1680 ||
  (0x2000 ≤ c.toNat && c.toNat ≤ 0x200a) ||
  c.toNat = 0x2028 || c.toNat = 0x2029 || c.toNat = 0x202f ||
  c.toNat = 0x205f || c.toNat = 0x3000

/-- Truthiness of the Python expression s.strip, that is, whether s has
at least one non-whitespace character. -/
def stripNonEmpty (s : String) : Bool := s.data.any fun c => !pyIsSpace c

/-- Join a list of lines with newline separators, the Python join of
code_content on a newline string. -/
def joinLines : List String → String
  | [] => ""
  | [l] => l
  | l :: ls => l ++ "\n" ++ joinLines ls

/-- Fixed literal deeper indent inserted before the synthesized tags: the
24 spaces that appear in the format string of fix_code_blocks.py. -/
def wrapIndent : String := "                        "

/-- Opening wrap tags of the synthesized line. -/
def openTag : String := "<pre><code>"

/-- Closing wrap tags of the synthesized line. -/
def closeTag : String := "</code></pre>"

/-- Opening pre tag tested by the canonicality check. -/
def preTag : String := "<pre>"

/-- Opening code tag tested by the canonicality check. -/
def codeTag : String := "<code>"

/-- Scanner state carried between loop iterations: the in_code_block
flag, the code_content body buffer and the recorded indent of
fix_code_blocks.py, without the output accumulator. -/
structure MState where
  in_code_block : Bool
  code_content : List String
  indent : String
deriving DecidableEq

/-- One iteration of the loop body of fix_code_blocks, in emit form: the
resulting scanner state together with the lines appended to new_lines
during that iteration.  The four branches are, in the order tested by the
Python code: start marker present in the line; end marker present while
in_code_block; any other line while in_code_block; any other line
outside. -/
def emitStep (s : MState) (line : String) : MState × List String :=
  if containsStr line startMarker then
    (⟨true, s.code_content, textBefore line divToken⟩, [line])
  else if containsStr line endMarker && s.in_code_block then
    let code_text := joinLines s.code_content
    if !containsStr code_text preTag && !containsStr code_text codeTag &&
        stripNonEmpty code_text then
      (⟨false, [], s.indent⟩, [s.indent ++ wrapIndent ++ openTag ++ code_text ++ closeTag, line])
    else
      (⟨false, [], s.indent⟩, s.code_content ++ [line])
  else if s.in_code_block then
    (⟨s.in_code_block, s.code_content ++ [line], s.indent⟩, [])
  else
    (s, [line])

/-- Full loop state of fix_code_blocks including the new_lines output
accumulator, matching the four local variables of the Python function. -/
structure FixState where
  new_lines : List String
  in_code_block : Bool
  code_content : List String
  indent : String
deriving DecidableEq

/-- One iteration of the loop body of fix_code_blocks acting on the full
state, a direct transcription of the Python loop. -/
def fixStep (s : FixState) (line : String) : FixState :=
  if containsStr line startMarker then
    { s with in_code_block := true, indent := textBefore line divToken,
             new_lines := s.new_lines ++ [line] }
  else if containsStr line endMarker && s.in_code_block then
    let code_text := joinLines s.code_content
    if !containsStr code_text preTag && !containsStr code_text codeTag &&
        stripNonEmpty code_text then
      { new_lines := s.new_lines ++ [s.indent ++ wrapIndent ++ openTag ++ code_text ++ closeTag, line],
        in_code_block := false, code_content := [], indent := s.indent }
    else
      { new_lines := s.new_lines ++ s.code_content ++ [line],
        in_code_block := false, code_content := [], indent := s.indent }
  else if s.in_code_block then
    { s with code_content := s.code_content ++ [line] }
  else
    { s with new_lines := s.new_lines ++ [line] }

/-- The line transformation of fix_code_blocks: fold the loop body over
the lines starting from empty new_lines, in_code_block false, empty
code_content and empty indent, and return the accumulated new_lines.
Note that a body buffer still pending when the lines run out is not
appended to new_lines, exactly as in the Python code. -/
def fix_code_blocks (lines : List String) : List String :=
  (lines.foldl fixStep ⟨[], false, [], ""⟩).new_lines

/-- Output of the pass from a given scanner state, in emit form. -/
def runFix (s : MState) : List String → List String
  | [] => []
  | l :: ls => (emitStep s l).2 ++ runFix (emitStep s l).1 ls

/-- Scanner state after consuming a list of lines. -/
def runState (s : MState) : List String → MState
  | [] => s
  | l :: ls => runState (emitStep s l).1 ls

/-- Initial scanner state of the pass. -/
def mInit : MState := ⟨false, [], ""⟩

/-- Scanner-state projection of a full loop state. -/
def toM (s : FixState) : MState := ⟨s.in_code_block, s.code_content, s.indent⟩

/-- Whether a line is consumed into the body buffer by the loop: true
exactly when the line reaches the third branch, that is, it lacks the
start marker, it does not close a region, and the scanner is inside a
region.  Every other line is appended directly to new_lines. -/
def isBuffered (s : MState) (line : String) : Bool :=
  !containsStr line startMarker && !(containsStr line endMarker && s.in_code_block) &&
    s.in_code_block

/-- The lines of a document that are never consumed into a body buffer:
all lines outside detected regions together with the marker lines
themselves, in document order. -/
def passedThrough (s : MState) : List String → List String
  | [] => []
  | l :: ls =>
    if isBuffered s l then passedThrough (emitStep s l).1 ls
    else l :: passedThrough (emitStep s l).1 ls

/-- The canonicality test of the Python code on a joined body: the body
is left unchanged exactly when it contains the pre tag, or contains the
code tag, or is empty after stripping whitespace. -/
def alreadyFormatted (t : String) : Bool :=
  containsStr t preTag || containsStr t codeTag || !stripNonEmpty t

/-- A fully canonical document: scanning with the same marker tests as
the pass, every region is properly delimited (no start marker inside a
region, no unterminated region at the end of the document) and every
region body passes the canonicality test of the code.  Lines outside
regions are unconstrained. -/
def canonicalDoc : Bool → List String → List String → Bool
  | false, _, [] => true
  | true, _, [] => false
  | inBlk, buf, l :: ls =>
    if containsStr l startMarker then
      if inBlk then false else canonicalDoc true [] ls
    else if containsStr l endMarker && inBlk then
      alreadyFormatted (joinLines buf) && canonicalDoc false [] ls
    else if inBlk then canonicalDoc true (buf ++ [l]) ls
    else canonicalDoc false buf ls

/-- Joining a single line is that line. -/
lemma joinLines_singleton (l : String) : joinLines [l] = l := rfl

/-- One full-state step equals the emit-form step: new output lines are
appended on the right and the scanner components evolve by emitStep. -/
lemma fixStep_eq_emitStep (s : FixState) (line : String) :
    fixStep s line =
      ⟨s.new_lines ++ (emitStep (toM s) line).2,
        (emitStep (toM s) line).1.in_code_block,
        (emitStep (toM s) line).1.code_content,
        (emitStep (toM s) line).1.indent⟩ := by
  simp only [fixStep, emitStep, toM]
  split
  · rfl
  · split
    · split
      · rfl
      · simp
    · split
      · simp
      · rfl

/-- The fold of the full-state step computes the emit-form run: the final
new_lines extend the initial ones by runFix, and the scanner components
follow runState. -/
lemma foldl_fixStep_spec (ls : List String) : ∀ s : FixState,
    ((ls.foldl fixStep s).new_lines = s.new_lines ++ runFix (toM s) ls ∧
      toM (ls.foldl fixStep s) = runState (toM s) ls) := by
  induction ls with
  | nil => intro s; simp [runFix, runState]
  | cons l ls ih =>
    intro s
    rw [List.foldl_cons, fixStep_eq_emitStep s l]
    obtain ⟨h1, h2⟩ := ih ⟨s.new_lines ++ (emitStep (toM s) l).2,
      (emitStep (toM s) l).1.in_code_block,
      (emitStep (toM s) l).1.code_content,
      (emitStep (toM s) l).1.indent⟩
    constructor
    · rw [h1]; simp [runFix, toM]
    · rw [h2]; simp [runState, toM]

/-- The line transformation is the emit-form run from the initial
state. -/
lemma fix_eq_runFix (lines : List String) :
    fix_code_blocks lines = runFix mInit lines :=
  (foldl_fixStep_spec lines ⟨[], false, [], ""⟩).1

/-- Run of an appended document splits at the intermediate state. -/
lemma runFix_append (l₁ l₂ : List String) : ∀ s : MState,
    runFix s (l₁ ++ l₂) = runFix s l₁ ++ runFix (runState s l₁) l₂ := by
  induction l₁ with
  | nil => intro s; simp [runFix, runState]
  | cons l l₁ ih => intro s; simp [runFix, runState, ih]

/-- Lines containing neither marker are buffered while inside a region:
they produce no output and are appended in order to code_content. -/
lemma runFix_body (body : List String)
    (hb : ∀ l ∈ body, containsStr l startMarker = false ∧ containsStr l endMarker = false) :
    ∀ (buf : List String) (ind : String) (ls : List String),
    runFix ⟨true, buf, ind⟩ (body ++ ls) = runFix ⟨true, buf ++ body, ind⟩ ls := by
  induction body with
  | nil => intro buf ind ls; simp
  | cons b body ih =>
    intro buf ind ls
    obtain ⟨hs, he⟩ := hb b (by simp)
    have hstep : emitStep ⟨true, buf, ind⟩ b = (⟨true, buf ++ [b], ind⟩, []) := by
      simp [emitStep, hs, he]
    rw [List.cons_append, runFix, hstep]
    have := ih (fun l hl => hb l (by simp [hl])) (buf ++ [b]) ind ls
    simp only at this
    rw [this]
    simp

/-- Same accumulation fact for the scanner state. -/
lemma runState_body (body : List String)
    (hb : ∀ l ∈ body, containsStr l startMarker = false ∧ containsStr l endMarker = false) :
    ∀ (buf : List String) (ind : String) (ls : List String),
    runState ⟨true, buf, ind⟩ (body ++ ls) = runState ⟨true, buf ++ body, ind⟩ ls := by
  induction body with
  | nil => intro buf ind ls; simp
  | cons b body ih =>
    intro buf ind ls
    obtain ⟨hs, he⟩ := hb b (by simp)
    have hstep : emitStep ⟨true, buf, ind⟩ b = (⟨true, buf ++ [b], ind⟩, []) := by
      simp [emitStep, hs, he]
    rw [List.cons_append, runState, hstep]
    have := ih (fun l hl => hb l (by simp [hl])) (buf ++ [b]) ind ls
    simp only at this
    rw [this]
    simp

/-- One step preserves the invariant that the body buffer is empty
whenever the scanner is outside a region. -/
lemma emitStep_outside_empty (s : MState) (l : String)
    (h : s.in_code_block = false → s.code_content = []) :
    (emitStep s l).1.in_code_block = false → (emitStep s l).1.code_content = [] := by
  unfold emitStep
  split
  · intro h'; simp at h'
  · split
    · intro _
      dsimp only
      split
      · rfl
      · rfl
    · split
      · rename_i hin
        intro h'
        simp only at h'
        rw [h'] at hin
        simp at hin
      · exact h

/-- Along any run, the body buffer is empty whenever the scanner is
outside a region. -/
lemma runState_outside_empty (ls : List String) : ∀ s : MState,
    (s.in_code_block = false → s.code_content = []) →
    (runState s ls).in_code_block = false → (runState s ls).code_content = [] := by
  induction ls with
  | nil => intro s h; exact h
  | cons l ls ih =>
    intro s h
    rw [runState]
    exact ih _ (emitStep_outside_empty s l h)

/-- C1, counterexample.  The claim states that a document with a start
marker and no subsequent end marker is returned with all lines unchanged.
In fact the body line after the start marker stays in the pending buffer
when the lines run out and is dropped from the output, so the output is
not the input. -/
theorem C1_counterexample :
    fix_code_blocks ["a", "<div class=\"code-block\">", "b"]
      = ["a", "<div class=\"code-block\">"] ∧
    fix_code_blocks ["a", "<div class=\"code-block\">", "b"]
      ≠ ["a", "<div class=\"code-block\">", "b"] := by
  decide

/-- C1, amended.  For every document formed of a prefix, a start-marker
line, and trailing body lines containing neither marker, the body lines
accumulated after the unmatched start marker are dropped: the output is
the output for the prefix followed by the start-marker line alone. -/
theorem C1_unterminated_region_drops_body (pre : List String) (startLine : String)
    (body : List String)
    (hs : containsStr startLine startMarker = true)
    (hb : ∀ l ∈ body, containsStr l startMarker = false ∧ containsStr l endMarker = false) :
    fix_code_blocks (pre ++ startLine :: body) = fix_code_blocks pre ++ [startLine] := by
  rw [fix_eq_runFix, fix_eq_runFix, runFix_append]
  have hstep : emitStep (runState mInit pre) startLine
      = (⟨true, (runState mInit pre).code_content, textBefore startLine divToken⟩,
          [startLine]) := by
    simp [emitStep, hs]
  have hbody := runFix_body body hb (runState mInit pre).code_content
    (textBefore startLine divToken) []
  simp only [List.append_nil] at hbody
  rw [runFix, hstep]
  simp [hbody, runFix]

/-- C1, witness for the amended theorem. -/
theorem C1_unterminated_region_drops_body_witness :
    fix_code_blocks (["intro"] ++ "<div class=\"code-block\">" :: ["b", "c"])
      = fix_code_blocks ["intro"] ++ ["<div class=\"code-block\">"] :=
  C1_unterminated_region_drops_body ["intro"] "<div class=\"code-block\">" ["b", "c"]
    (by decide) (by decide)

/-- C8, counterexample.  The claim states that while inside a region any
non-end-marker line, including one containing the start marker, is
appended verbatim to the body buffer without changing the recorded
indent.  In fact a start-marker line seen inside a region is not
buffered: it is emitted immediately and the recorded indent changes, as
both the step and a whole document show. -/
theorem C8_counterexample :
    (emitStep ⟨true, ["a"], ""⟩ "  <div class=\"code-block\">").1.code_content = ["a"] ∧
    (emitStep ⟨true, ["a"], ""⟩ "  <div class=\"code-block\">").1.indent = "  " ∧
    (emitStep ⟨true, ["a"], ""⟩ "  <div class=\"code-block\">").2
      = ["  <div class=\"code-block\">"] ∧
    fix_code_blocks ["<div class=\"code-block\">", "  <div class=\"code-block\">", "x", "</div>"]
      = ["<div class=\"code-block\">", "  <div class=\"code-block\">",
         "  " ++ wrapIndent ++ "<pre><code>x</code></pre>", "</div>"] := by
  decide

/-- C8, amended.  While the scanner is inside a region, a line containing
neither marker is appended verbatim to the body buffer with the indent
unchanged and nothing emitted, whereas a line containing the start marker
is treated as a fresh region start: it is emitted immediately, the indent
is re-recorded from it, and the buffer is left as it was. -/
theorem C8_inside_region_transitions (s : MState) (hin : s.in_code_block = true)
    (line : String) :
    (containsStr line startMarker = false → containsStr line endMarker = false →
      emitStep s line = (⟨true, s.code_content ++ [line], s.indent⟩, [])) ∧
    (containsStr line startMarker = true →
      emitStep s line = (⟨true, s.code_content, textBefore line divToken⟩, [line])) := by
  constructor
  · intro h1 h2
    simp [emitStep, h1, h2, hin]
  · intro h1
    simp [emitStep, h1]

/-- C8, witness for the amended theorem. -/
theorem C8_inside_region_transitions_witness :
    emitStep ⟨true, ["a"], "  "⟩ "plain text" = (⟨true, ["a", "plain text"], "  "⟩, []) :=
  (C8_inside_region_transitions ⟨true, ["a"], "  "⟩ rfl "plain text").1 (by decide) (by decide)

/-- C9, counterexample.  The claim states that the recorded indent is the
substring of the start-marker line preceding the full start marker.  On a
line where the bare div token occurs before the start marker, the code
records the prefix before that first div token instead. -/
theorem C9_counterexample :
    (emitStep ⟨false, [], ""⟩ "<div id=\"x\"><div class=\"code-block\">").1.indent = "" ∧
    textBefore "<div id=\"x\"><div class=\"code-block\">" startMarker = "<div id=\"x\">" ∧
    ("" : String) ≠ "<div id=\"x\">" := by
  decide

/-- C9, amended.  On a region start the recorded indent is the prefix of
the line before the first occurrence of the bare div token, which agrees
with the prefix before the start marker only when the div token does not
occur earlier in the line; the start-marker line itself is emitted
unmodified. -/
theorem C9_indent_before_first_div (s : MState) (_hout : s.in_code_block = false)
    (line : String) (hs : containsStr line startMarker = true) :
    emitStep s line = (⟨true, s.code_content, textBefore line divToken⟩, [line]) := by
  simp [emitStep, hs]

/-- C9, witness for the amended theorem. -/
theorem C9_indent_before_first_div_witness :
    emitStep ⟨false, [], ""⟩ "    <div class=\"code-block\">"
      = (⟨true, [], "    "⟩, ["    <div class=\"code-block\">"]) :=
  C9_indent_before_first_div ⟨false, [], ""⟩ rfl "    <div class=\"code-block\">" (by decide)

/-- C10.  A line containing both markers is treated as a region start in
every scanner state: the scanner is inside a region afterwards, the body
buffer is untouched, and the line passes through; the end marker on that
line never closes a region. -/
theorem C10_both_markers_line_is_region_start (s : MState) (line : String)
    (hs : containsStr line startMarker = true) (_he : containsStr line endMarker = true) :
    emitStep s line = (⟨true, s.code_content, textBefore line divToken⟩, [line]) := by
  simp [emitStep, hs]

/-- C10, witness. -/
theorem C10_both_markers_line_is_region_start_witness :
    emitStep ⟨true, ["x"], "  "⟩ "<div class=\"code-block\"></div>"
      = (⟨true, ["x"], ""⟩, ["<div class=\"code-block\"></div>"]) :=
  C10_both_markers_line_is_region_start ⟨true, ["x"], "  "⟩ "<div class=\"code-block\"></div>"
    (by decide) (by decide)

/-- C2, counterexample.  The claim states that a body is emitted
unchanged exactly when it contains both an opening and a closing wrap
tag, a partially tagged body being wrapped again.  A body consisting of
an opening pre tag with no closing tag of any kind is nevertheless
emitted unchanged. -/
theorem C2_counterexample :
    fix_code_blocks ["<div class=\"code-block\">", "<pre>x", "</div>"]
      = ["<div class=\"code-block\">", "<pre>x", "</div>"] ∧
    containsStr "<pre>x" "</pre>" = false ∧
    containsStr "<pre>x" codeTag = false ∧
    containsStr "<pre>x" "</code>" = false := by
  decide

/-- C2, amended.  A region body closed by an end-marker line is emitted
unchanged exactly when its joined text contains the opening pre tag, or
contains the opening code tag, or is empty after stripping whitespace;
closing tags are never tested, so a partially tagged body with an opening
tag is emitted unchanged rather than wrapped again. -/
theorem C2_unchanged_iff_pre_or_code_or_blank (body : List String) (ind e : String)
    (hs : containsStr e startMarker = false) (he : containsStr e endMarker = true) :
    (emitStep ⟨true, body, ind⟩ e).2 = body ++ [e] ↔
      (containsStr (joinLines body) preTag = true ∨
        containsStr (joinLines body) codeTag = true ∨
        stripNonEmpty (joinLines body) = false) := by
  cases hp : containsStr (joinLines body) preTag with
  | true => simp [emitStep, hs, he, hp]
  | false =>
    cases hc : containsStr (joinLines body) codeTag with
    | true => simp [emitStep, hs, he, hp, hc]
    | false =>
      cases hn : stripNonEmpty (joinLines body) with
      | false => simp [emitStep, hs, he, hp, hc, hn]
      | true =>
        have hout : (emitStep ⟨true, body, ind⟩ e).2
            = [ind ++ wrapIndent ++ openTag ++ joinLines body ++ closeTag, e] := by
          simp [emitStep, hs, he, hp, hc, hn]
        rw [hout]
        constructor
        · intro hEq
          exfalso
          have hbody : [ind ++ wrapIndent ++ openTag ++ joinLines body ++ closeTag] = body :=
            List.append_cancel_right hEq
          have hlen : (joinLines body).length
              = (joinLines [ind ++ wrapIndent ++ openTag ++ joinLines body ++ closeTag]).length := by
            rw [hbody]
          rw [joinLines_singleton] at hlen
          simp only [String.length_append] at hlen
          have l1 : wrapIndent.length = 24 := by decide
          have l2 : openTag.length = 11 := by decide
          have l3 : closeTag.length = 13 := by decide
          omega
        · intro hOr
          rcases hOr with h | h | h <;> simp at h

/-- C2, witness for the amended theorem. -/
theorem C2_unchanged_iff_pre_or_code_or_blank_witness :
    (emitStep ⟨true, ["<pre>x"], ""⟩ "</div>").2 = ["<pre>x"] ++ ["</div>"] :=
  (C2_unchanged_iff_pre_or_code_or_blank ["<pre>x"] "" "</div>" (by decide) (by decide)).mpr
    (Or.inl (by decide))

/-- C3, counterexample.  The claim predicts that a region with body
lines consisting of foo with two leading spaces and a recorded indent of
four spaces synthesizes one line whose leading whitespace is 24 spaces.
The synthesized line actually carries the four-space indent followed by
the fixed 24-space deeper indent, 28 leading spaces in total, which is a
different string. -/
theorem C3_counterexample :
    fix_code_blocks ["    <div class=\"code-block\">", "  foo();", "    </div>"]
      = ["    <div class=\"code-block\">",
         "                            <pre><code>  foo();</code></pre>",
         "    </div>"] ∧
    ("                            <pre><code>  foo();</code></pre>" : String)
      ≠ "                        <pre><code>  foo();</code></pre>" := by
  decide

/-- C3, amended.  For the region whose body lines are exactly the single
line foo with two leading spaces, with recorded indent of four spaces and
no wrap tags in the body, the pass emits in place of the body exactly one
line equal to 28 spaces, that is the four-space indent followed by the
fixed 24-space deeper indent, followed by the open tags, the body text
and the close tags. -/
theorem C3_indent_plus_fixed_indent_output :
    fix_code_blocks ["    <div class=\"code-block\">", "  foo();", "    </div>"]
      = ["    <div class=\"code-block\">",
         "    " ++ wrapIndent ++ openTag ++ "  foo();" ++ closeTag,
         "    </div>"] ∧
    "    " ++ wrapIndent ++ openTag ++ "  foo();" ++ closeTag
      = "                            <pre><code>  foo();</code></pre>" := by
  decide

/-- C4.  For every document containing a region whose body joins to text
without the pre tag, without the code tag, and non-empty after stripping
whitespace, the pass replaces all of the body lines by exactly one
synthesized line, the recorded indent followed by the fixed deeper
indent, the open tags, the joined body text verbatim, and the close tags;
the marker lines and the remaining document continue unchanged from the
state after the region. -/
theorem C4_single_synthesized_line (pre : List String) (startLine : String)
    (body : List String) (e : String) (rest : List String)
    (hpre : (runState mInit pre).in_code_block = false)
    (hs : containsStr startLine startMarker = true)
    (hb : ∀ l ∈ body, containsStr l startMarker = false ∧ containsStr l endMarker = false)
    (hes : containsStr e startMarker = false) (hee : containsStr e endMarker = true)
    (hp : containsStr (joinLines body) preTag = false)
    (hc : containsStr (joinLines body) codeTag = false)
    (hn : stripNonEmpty (joinLines body) = true) :
    fix_code_blocks (pre ++ startLine :: (body ++ e :: rest))
      = fix_code_blocks pre
        ++ startLine
          :: (textBefore startLine divToken ++ wrapIndent ++ openTag
              ++ joinLines body ++ closeTag)
          :: e :: runFix ⟨false, [], textBefore startLine divToken⟩ rest := by
  have hbuf : (runState mInit pre).code_content = [] :=
    runState_outside_empty pre mInit (fun _ => rfl) hpre
  rw [fix_eq_runFix, fix_eq_runFix, runFix_append]
  have hstep : emitStep (runState mInit pre) startLine
      = (⟨true, (runState mInit pre).code_content, textBefore startLine divToken⟩,
          [startLine]) := by
    simp [emitStep, hs]
  rw [runFix, hstep, hbuf]
  have hbody := runFix_body body hb [] (textBefore startLine divToken) (e :: rest)
  simp only [List.nil_append] at hbody
  rw [hbody]
  have hend : emitStep ⟨true, body, textBefore startLine divToken⟩ e
      = (⟨false, [], textBefore startLine divToken⟩,
          [textBefore startLine divToken ++ wrapIndent ++ openTag
            ++ joinLines body ++ closeTag, e]) := by
    simp [emitStep, hes, hee, hp, hc, hn]
  rw [runFix, hend]
  simp

/-- C4, witness. -/
theorem C4_single_synthesized_line_witness :
    fix_code_blocks ([] ++ "  <div class=\"code-block\">" :: (["x", "y"] ++ "</div>" :: ["tail"]))
      = fix_code_blocks []
        ++ "  <div class=\"code-block\">"
          :: (textBefore "  <div class=\"code-block\">" divToken ++ wrapIndent ++ openTag
              ++ joinLines ["x", "y"] ++ closeTag)
          :: "</div>"
          :: runFix ⟨false, [], textBefore "  <div class=\"code-block\">" divToken⟩ ["tail"] :=
  C4_single_synthesized_line [] "  <div class=\"code-block\">" ["x", "y"] "</div>" ["tail"]
    (by decide) (by decide) (by decide) (by decide) (by decide) (by decide) (by decide)
    (by decide)

/-- C6.  For every document containing a region whose body joins to text
that is empty after stripping whitespace, the pass emits the original
body lines unchanged and synthesizes nothing: the output for the region
equals its input. -/
theorem C6_blank_body_unchanged (pre : List String) (startLine : String)
    (body : List String) (e : String) (rest : List String)
    (hpre : (runState mInit pre).in_code_block = false)
    (hs : containsStr startLine startMarker = true)
    (hb : ∀ l ∈ body, containsStr l startMarker = false ∧ containsStr l endMarker = false)
    (hes : containsStr e startMarker = false) (hee : containsStr e endMarker = true)
    (hn : stripNonEmpty (joinLines body) = false) :
    fix_code_blocks (pre ++ startLine :: (body ++ e :: rest))
      = fix_code_blocks pre
        ++ startLine :: (body ++ e :: runFix ⟨false, [], textBefore startLine divToken⟩ rest) := by
  have hbuf : (runState mInit pre).code_content = [] :=
    runState_outside_empty pre mInit (fun _ => rfl) hpre
  rw [fix_eq_runFix, fix_eq_runFix, runFix_append]
  have hstep : emitStep (runState mInit pre) startLine
      = (⟨true, (runState mInit pre).code_content, textBefore startLine divToken⟩,
          [startLine]) := by
    simp [emitStep, hs]
  rw [runFix, hstep, hbuf]
  have hbody := runFix_body body hb [] (textBefore startLine divToken) (e :: rest)
  simp only [List.nil_append] at hbody
  rw [hbody]
  have hend : emitStep ⟨true, body, textBefore startLine divToken⟩ e
      = (⟨false, [], textBefore startLine divToken⟩, body ++ [e]) := by
    simp [emitStep, hes, hee, hn]
  rw [runFix, hend]
  simp

/-- C6, witness: a body of one blank and one whitespace-only line. -/
theorem C6_blank_body_unchanged_witness :
    fix_code_blocks (["h"] ++ "<div class=\"code-block\">" :: (["", "   "] ++ "</div>" :: []))
      = fix_code_blocks ["h"]
        ++ "<div class=\"code-block\">"
          :: (["", "   "] ++ "</div>" :: runFix ⟨false, [], textBefore "<div class=\"code-block\">" divToken⟩ []) :=
  C6_blank_body_unchanged ["h"] "<div class=\"code-block\">" ["", "   "] "</div>" []
    (by decide) (by decide) (by decide) (by decide) (by decide) (by decide)

/-- The non-buffered lines of a run form a sublist of its output: every
line that is not consumed into a body buffer is emitted unaltered and in
order. -/
lemma passedThrough_sublist (doc : List String) : ∀ s : MState,
    (passedThrough s doc).Sublist (runFix s doc) := by
  induction doc with
  | nil => intro s; simp [passedThrough, runFix]
  | cons l ls ih =>
    intro s
    rw [passedThrough, runFix]
    by_cases hbuf : isBuffered s l = true
    · rw [if_pos hbuf]
      have hb := hbuf
      unfold isBuffered at hb
      simp only [Bool.and_eq_true, Bool.not_eq_true', Bool.not_eq_true] at hb
      obtain ⟨⟨h1, h2⟩, h3⟩ := hb
      have h4 : containsStr l endMarker = false := by
        cases h5 : containsStr l endMarker
        · rfl
        · rw [h5, h3] at h2; simp at h2
      have hout : (emitStep s l).2 = [] := by
        simp [emitStep, h1, h4, h3]
      rw [hout]
      simpa using ih _
    · rw [if_neg hbuf]
      cases hsm : containsStr l startMarker with
      | true =>
        have hout : (emitStep s l).2 = [l] := by simp [emitStep, hsm]
        rw [hout]
        exact List.Sublist.cons₂ l (ih _)
      | false =>
        cases hin : s.in_code_block with
        | false =>
          have hout : (emitStep s l).2 = [l] := by
            simp [emitStep, hsm, hin]
          rw [hout]
          exact List.Sublist.cons₂ l (ih _)
        | true =>
          have hem : containsStr l endMarker = true := by
            cases h5 : containsStr l endMarker
            · exfalso
              apply hbuf
              unfold isBuffered
              rw [hsm, h5, hin]
              rfl
            · rfl
          have hout : ∃ X, (emitStep s l).2 = X ++ [l] := by
            simp only [emitStep, hsm, hem, hin, Bool.false_eq_true, if_false,
              Bool.and_self, if_true]
            split
            · exact ⟨[s.indent ++ wrapIndent ++ openTag ++ joinLines s.code_content ++ closeTag],
                rfl⟩
            · exact ⟨s.code_content, rfl⟩
          obtain ⟨X, hX⟩ := hout
          rw [hX, List.append_assoc, List.singleton_append]
          exact ((List.Sublist.cons₂ l (ih _)).trans (List.sublist_append_right X _))

/-- C5.  For every document, the lines never consumed into a region body
buffer, which are all lines outside detected regions together with the
start-marker and end-marker lines themselves, appear in the output of
the pass unaltered, in their original relative order, and none is
dropped: they form a sublist of the output. -/
theorem C5_outside_lines_preserved (doc : List String) :
    (passedThrough mInit doc).Sublist (fix_code_blocks doc) := by
  rw [fix_eq_runFix]
  exact passedThrough_sublist doc mInit

/-- Runs from a canonical configuration reproduce their input: if the
scanner is outside a region with an empty pending buffer, or inside a
region whose remaining lines close it canonically, the emitted lines are
the pending buffer followed by the input lines. -/
lemma canonicalDoc_run (ls : List String) : ∀ (b : Bool) (buf : List String) (ind : String),
    (b = false → buf = []) →
    canonicalDoc b buf ls = true →
    runFix ⟨b, buf, ind⟩ ls = (if b then buf else []) ++ ls := by
  induction ls with
  | nil =>
    intro b buf ind hb h
    cases b
    · simp [runFix]
    · simp [canonicalDoc] at h
  | cons l ls ih =>
    intro b buf ind hb h
    rw [runFix]
    cases hsm : containsStr l startMarker with
    | true =>
      cases b with
      | true =>
        simp [canonicalDoc, hsm] at h
      | false =>
        have hbuf : buf = [] := hb rfl
        subst hbuf
        simp only [canonicalDoc, hsm, if_true, Bool.false_eq_true, if_false] at h
        have hstep : emitStep ⟨false, [], ind⟩ l
            = (⟨true, [], textBefore l divToken⟩, [l]) := by
          simp [emitStep, hsm]
        rw [hstep, ih true [] (textBefore l divToken) (fun hx => nomatch hx) h]
        simp
    | false =>
      cases b with
      | true =>
        cases hem : containsStr l endMarker with
        | true =>
          simp only [canonicalDoc, hsm, Bool.false_eq_true, if_false, hem,
            Bool.true_and, if_true, Bool.and_eq_true] at h
          obtain ⟨hfmt, hrest⟩ := h
          have hcond : (!containsStr (joinLines buf) preTag &&
              !containsStr (joinLines buf) codeTag &&
              stripNonEmpty (joinLines buf)) = false := by
            unfold alreadyFormatted at hfmt
            cases c1 : containsStr (joinLines buf) preTag <;>
              cases c2 : containsStr (joinLines buf) codeTag <;>
              cases c3 : stripNonEmpty (joinLines buf) <;>
              simp [c1, c2, c3] at hfmt ⊢
          have hstep : emitStep ⟨true, buf, ind⟩ l = (⟨false, [], ind⟩, buf ++ [l]) := by
            simp [emitStep, hsm, hem, hcond]
          rw [hstep, ih false [] ind (fun _ => rfl) hrest]
          simp
        | false =>
          simp only [canonicalDoc, hsm, Bool.false_eq_true, if_false, hem,
            Bool.false_and, if_true] at h
          have hstep : emitStep ⟨true, buf, ind⟩ l
              = (⟨true, buf ++ [l], ind⟩, []) := by
            simp [emitStep, hsm, hem]
          rw [hstep, ih true (buf ++ [l]) ind (fun hx => nomatch hx) h]
          simp
      | false =>
        have hbuf : buf = [] := hb rfl
        subst hbuf
        simp only [canonicalDoc, hsm, Bool.false_eq_true, if_false,
          Bool.and_false] at h
        have hstep : emitStep ⟨false, [], ind⟩ l = (⟨false, [], ind⟩, [l]) := by
          simp [emitStep, hsm]
        rw [hstep, ih false [] ind (fun _ => rfl) h]
        simp

/-- C7.  Transforming a fully canonical document, one in which every
region is properly delimited and every region body already passes the
canonicality test of the code, returns the document unchanged line for
line; re-running the pass on canonical input is therefore a no-op. -/
theorem C7_canonical_input_unchanged (doc : List String)
    (h : canonicalDoc false [] doc = true) :
    fix_code_blocks doc = doc := by
  rw [fix_eq_runFix]
  have := canonicalDoc_run doc false [] "" (fun _ => rfl) h
  simpa [mInit] using this

/-- C7, witness: a document with an already wrapped region, surrounding
prose, and a stray closing div outside any region. -/
theorem C7_canonical_input_unchanged_witness :
    fix_code_blocks ["intro", "<div class=\"code-block\">",
      "  <pre><code>x</code></pre>", "</div>", "outro", "</div>"]
      = ["intro", "<div class=\"code-block\">",
         "  <pre><code>x</code></pre>", "</div>", "outro", "</div>"] :=
  C7_canonical_input_unchanged ["intro", "<div class=\"code-block\">",
    "  <pre><code>x</code></pre>", "</div>", "outro", "</div>"] (by decide)
